import Mathlib

/-!
Verification development for the spectrum-monitor sweep/FFT pipeline.

The definitions below are a shallow embedding of the Python sources:
* spectrum_monitor/hackrf_interface.py (tile reassembly in the FFT-ready
  callback, DC-spike interpolation, range clipping, sweep configuration),
* spectrum_monitor/storage.py (baseline persistence, coverage check,
  nearest-bin lookup),
* spectrum_monitor/monitoring_mode.py (alert lifecycle, threshold keys),
* spectrum_monitor/config.py (threshold-buffer update),
* python_ui/spectrum_analyzer_ui.py (waterfall resampling),
* python_ui/hackrf_interface.py (extended sweep range).

Machine floats are modelled by exact rationals, numpy arrays by lists,
Python exceptions by an Except result.
-/

set_option maxRecDepth 8000

namespace SpectrumMonitor

/-- Sample rate constant DEFAULT_SAMPLE_RATE_HZ = 20000000 from
hackrf_interface.py. -/
def DEFAULT_SAMPLE_RATE_HZ : ℤ := 20000000

/-- FREQ_ONE_MHZ = 1000000 from hackrf_interface.py. -/
def FREQ_ONE_MHZ : ℤ := 1000000

/-- Model of numpy.linspace over the rationals: n points from s to e,
endpoints inclusive (step (e - s) / (n - 1)). -/
def linspace (s e : ℚ) (n : ℕ) : List ℚ :=
  if n = 0 then []
  else if n = 1 then [s]
  else (List.range n).map fun i : ℕ => s + (i : ℚ) * ((e - s) / ((n - 1 : ℕ) : ℚ))

/-- Model of numpy.argmin on a rational list: index of the first occurrence
of the minimum (0 for the empty list, where numpy would raise). -/
def argminQ (l : List ℚ) : ℕ :=
  match l.enum with
  | [] => 0
  | p :: ps => (ps.foldl (fun best q => if q.2 < best.2 then q else best) p).1

/-- Model of numpy.mean on a rational list. -/
def meanQ (l : List ℚ) : ℚ := l.sum / (l.length : ℚ)

/-- HackRFInterface._remove_dc_spike (hackrf_interface.py lines 185-240).
Finds the bin whose frequency is closest to the centre
(frequencies[0] + frequencies[-1]) / 2 (first index on ties, as
numpy.argmin), then replaces the bins in
[max(0, c - d), min(len, c + d + 1)) of a copy of the power array:
by the linear ramp left * (1 - w) + right * w with
w = (i - start) / (end - start) when both outside neighbours exist,
by the left neighbour when only it exists, by the right neighbour when
only it exists, and by the overall mean when neither exists.  Natural
subtraction c - d models Python max(0, c - d). -/
def remove_dc_spike (frequencies power_levels : List ℚ) (dc_spike_width : ℕ) :
    List ℚ × List ℚ :=
  if frequencies = [] ∨ power_levels = [] then (frequencies, power_levels)
  else
    let freq_center := (frequencies.headD 0 + frequencies.getLastD 0) / 2
    let dc_bin_idx := argminQ (frequencies.map fun f => |f - freq_center|)
    let start_idx := dc_bin_idx - dc_spike_width
    let end_idx := min frequencies.length (dc_bin_idx + dc_spike_width + 1)
    let newVal : ℕ → ℚ := fun i =>
      if start_idx ≤ i ∧ i < end_idx then
        if 0 < start_idx ∧ end_idx < frequencies.length then
          let left_value := power_levels.getD (start_idx - 1) 0
          let right_value := power_levels.getD end_idx 0
          let weight : ℚ := ((i - start_idx : ℕ) : ℚ) / ((end_idx - start_idx : ℕ) : ℚ)
          left_value * (1 - weight) + right_value * weight
        else if 0 < start_idx then power_levels.getD (start_idx - 1) 0
        else if end_idx < power_levels.length then power_levels.getD end_idx 0
        else meanQ power_levels
      else power_levels.getD i 0
    (frequencies, (List.range power_levels.length).map newVal)

/-- Power-tile extraction of HackRFInterface._fft_ready_callback
(hackrf_interface.py lines 385-397): segment_size = N / 4, the upper
segment starts at 1 + N * 5 / 8, the lower segment at 1 + N / 8, and the
two are concatenated lower-then-upper. -/
def segment_powers (N : ℕ) (pwr : List ℚ) : List ℚ :=
  let segment_size := N / 4
  let first_start_idx := 1 + N * 5 / 8
  let second_start_idx := 1 + N / 8
  let first_power := (pwr.drop first_start_idx).take segment_size
  let second_power := (pwr.drop second_start_idx).take segment_size
  second_power ++ first_power

/-- Frequency vector built by HackRFInterface._fft_ready_callback
(hackrf_interface.py lines 399-414): two linspace-generated tiles of
segment_size = N / 4 points, the lower spanning
[(fc - 3 Fs / 8) / 1e6, (fc - Fs / 8) / 1e6] and the upper spanning
[(fc + Fs / 8) / 1e6, (fc + 3 Fs / 8) / 1e6] MHz, concatenated in
ascending order.  Integer divisions on the Hz constants are exact. -/
def segment_freqs (N : ℕ) (fc : ℤ) : List ℚ :=
  let segment_size := N / 4
  let second_freq_start : ℚ :=
    ((fc - DEFAULT_SAMPLE_RATE_HZ * 3 / 8 : ℤ) : ℚ) / (FREQ_ONE_MHZ : ℚ)
  let second_freq_end : ℚ :=
    ((fc - DEFAULT_SAMPLE_RATE_HZ / 8 : ℤ) : ℚ) / (FREQ_ONE_MHZ : ℚ)
  let first_freq_start : ℚ :=
    ((fc + DEFAULT_SAMPLE_RATE_HZ / 8 : ℤ) : ℚ) / (FREQ_ONE_MHZ : ℚ)
  let first_freq_end : ℚ :=
    ((fc + DEFAULT_SAMPLE_RATE_HZ * 3 / 8 : ℤ) : ℚ) / (FREQ_ONE_MHZ : ℚ)
  linspace second_freq_start second_freq_end segment_size ++
    linspace first_freq_start first_freq_end segment_size

/-- A spectrum frame (freqs in MHz, powers in dB) as handed to
_emit_spectrum_data. -/
structure Frame where
  freqs : List ℚ
  powers : List ℚ
deriving DecidableEq

/-- The clipped (frequency, power) pairs of one FFT-ready callback
(hackrf_interface.py lines 416-429): optional DC-spike removal followed by
the mask freq_min <= f <= freq_max applied to both arrays. -/
def clipped_pairs (N : ℕ) (fc : ℤ) (pwr : List ℚ) (dc_spike_removal : Bool)
    (dc_spike_width : ℕ) (user_freq_min user_freq_max : ℚ) : List (ℚ × ℚ) :=
  let freq_array := segment_freqs N fc
  let power_array := segment_powers N pwr
  let fp := if dc_spike_removal then remove_dc_spike freq_array power_array dc_spike_width
            else (freq_array, power_array)
  (fp.1.zip fp.2).filter fun p => decide (user_freq_min ≤ p.1 ∧ p.1 ≤ user_freq_max)

/-- One run of HackRFInterface._fft_ready_callback (lines 368-445) as a
frame producer: nothing is processed unless the power buffer is non-null
and N > 0, and the clipped frame is emitted iff it is nonempty. -/
def fft_ready_frame (N : ℕ) (fc : ℤ) (pwr : List ℚ) (dc_spike_removal : Bool)
    (dc_spike_width : ℕ) (user_freq_min user_freq_max : ℚ) : Option Frame :=
  if N = 0 ∨ pwr = [] then none
  else
    let clipped := clipped_pairs N fc pwr dc_spike_removal dc_spike_width
      user_freq_min user_freq_max
    if clipped = [] then none
    else some ⟨clipped.map Prod.fst, clipped.map Prod.snd⟩

/-- Minimum of a rational list, numpy.min style (0 for the empty list,
where numpy would raise). -/
def listMinQ : List ℚ → ℚ
  | [] => 0
  | x :: xs => xs.foldl min x

/-- Maximum of a rational list, numpy.max style. -/
def listMaxQ : List ℚ → ℚ
  | [] => 0
  | x :: xs => xs.foldl max x

/-- BaselineStorage.check_frequency_coverage (storage.py lines 180-215):
with the baseline loaded, tolerance is one bin width
(base_max - base_min) / (K - 1) when K > 1 (0.1 MHz otherwise), and the
check fails iff base_min - freq_min > tol or freq_max - base_max > tol. -/
def check_frequency_coverage (baselines_loaded : Bool) (frequencies : List ℚ)
    (freq_min freq_max : ℚ) : Bool :=
  if !baselines_loaded then false
  else
    let baseline_min := listMinQ frequencies
    let baseline_max := listMaxQ frequencies
    let tolerance : ℚ :=
      if 1 < frequencies.length then
        (baseline_max - baseline_min) / ((frequencies.length - 1 : ℕ) : ℚ)
      else 1 / 10
    if baseline_min - freq_min > tolerance ∨ freq_max - baseline_max > tolerance then false
    else true

/-- numpy.max(power_history, axis=0): columnwise maximum of the rows. -/
def maxAxis0 : List (List ℚ) → List ℚ
  | [] => []
  | r :: rs => rs.foldl (fun acc row => List.zipWith max acc row) r

/-- Values stored in the metadata record saved by save_baselines.  The
baseline_stats entry (min/max/mean/std of max_power_levels) is kept
symbolically as the list it summarises, since numpy.std is irrational in
general. -/
inductive MetaVal where
  | num (q : ℚ)
  | str (s : String)
  | range (lo hi : ℚ)
  | statsOf (powers : List ℚ)
deriving DecidableEq

/-- Metadata key constants used by save_baselines. -/
def timestampKey : String := "timestamp"

def creationDateKey : String := "creation_date"

def frequencyRangeKey : String := "frequency_range_mhz"

def numFrequencyBinsKey : String := "num_frequency_bins"

def numSweepsLearnedKey : String := "num_sweeps_learned"

def baselineStatsKey : String := "baseline_stats"

/-- The computed part of save_metadata in BaselineStorage.save_baselines
(storage.py lines 47-59); the wall-clock timestamp and date string are
parameters. -/
def base_metadata (now : ℚ) (date : String) (frequencies : List ℚ)
    (power_history : List (List ℚ)) : List (String × MetaVal) :=
  [(timestampKey, .num now),
   (creationDateKey, .str date),
   (frequencyRangeKey, .range (listMinQ frequencies) (listMaxQ frequencies)),
   (numFrequencyBinsKey, .num (frequencies.length : ℚ)),
   (numSweepsLearnedKey, .num (power_history.length : ℚ)),
   (baselineStatsKey, .statsOf (maxAxis0 power_history))]

/-- The npz archive written by BaselineStorage.save_baselines: the named
arrays plus the metadata record, the latter modelled as a lookup function.
save_metadata.update(metadata) gives user-supplied keys precedence over the
computed ones. -/
structure BaselineArchive where
  frequencies : List ℚ
  max_power_levels : List ℚ
  power_history : List (List ℚ)
  metadata : String → Option MetaVal

/-- BaselineStorage.save_baselines (storage.py lines 30-84): computes
max_power_levels = numpy.max(power_history, axis=0), merges the computed
metadata with the user metadata (user keys win, as dict.update), and
persists all four fields. -/
def save_baselines (now : ℚ) (date : String) (frequencies : List ℚ)
    (power_history : List (List ℚ)) (metadata : List (String × MetaVal)) :
    BaselineArchive :=
  { frequencies := frequencies
    max_power_levels := maxAxis0 power_history
    power_history := power_history
    metadata := fun k =>
      match metadata.lookup k with
      | some v => some v
      | none => (base_metadata now date frequencies power_history).lookup k }

/-- BaselineStorage.load_baselines (storage.py lines 86-115): restores
frequencies, max_power_levels and the metadata record from the archive. -/
def load_baselines (a : BaselineArchive) :
    List ℚ × List ℚ × (String → Option MetaVal) :=
  (a.frequencies, a.max_power_levels, a.metadata)

/-- BaselineStorage.get_baseline_at_frequency (storage.py lines 135-157).
Returns .ok none when no baseline is loaded; with a loaded baseline it
takes the bin nearest target_freq, then computes the tolerance
(frequencies[1] - frequencies[0]) * 2 — the index accesses raise
(modelled .error) when the frequency array has fewer than two entries. -/
def get_baseline_at_frequency (baselines_loaded : Bool)
    (frequencies max_power_levels : List ℚ) (target_freq : ℚ) :
    Except Unit (Option ℚ) :=
  if !baselines_loaded then .ok none
  else if frequencies = [] then .error ()
  else
    let freq_idx := argminQ (frequencies.map fun f => |f - target_freq|)
    let freq_diff := |frequencies.getD freq_idx 0 - target_freq|
    if frequencies.length < 2 then .error ()
    else
      let max_allowed_diff := (frequencies.getD 1 0 - frequencies.getD 0 0) * 2
      if freq_diff ≤ max_allowed_diff then .ok (some (max_power_levels.getD freq_idx 0))
      else .ok none

/-- Alert record (monitoring_mode.py lines 18-39): constructed on first
threshold crossing with first = last = detection_time and count 1. -/
structure Alert where
  frequency : ℚ
  signal_power : ℚ
  baseline_power : ℚ
  threshold_buffer : ℚ
  first_detection_time : ℚ
  last_detection_time : ℚ
  detection_count : ℕ
deriving DecidableEq

/-- Alert.__init__ (monitoring_mode.py lines 21-39). -/
def Alert.create (frequency signal_power baseline_power threshold_buffer
    detection_time : ℚ) : Alert :=
  { frequency := frequency
    signal_power := signal_power
    baseline_power := baseline_power
    threshold_buffer := threshold_buffer
    first_detection_time := detection_time
    last_detection_time := detection_time
    detection_count := 1 }

/-- Alert.update_detection (monitoring_mode.py lines 41-50): running-max
signal power, refreshed last_detection_time, incremented count. -/
def Alert.update_detection (a : Alert) (signal_power detection_time : ℚ) : Alert :=
  { a with
    signal_power := max a.signal_power signal_power
    last_detection_time := detection_time
    detection_count := a.detection_count + 1 }

/-- Alert.get_duration (monitoring_mode.py lines 52-54). -/
def Alert.get_duration (a : Alert) : ℚ :=
  a.last_detection_time - a.first_detection_time

/-- Alert.should_alert (monitoring_mode.py lines 56-58). -/
def Alert.should_alert (a : Alert) (min_duration : ℚ) : Bool :=
  decide (min_duration ≤ a.get_duration)

/-- The active-alert cleanup scan of MonitoringMode._on_spectrum_data
(monitoring_mode.py lines 226-239), active side: an alert survives iff
current_time - last_detection_time is NOT strictly greater than 5 s. -/
def cleanup_active (current_time : ℚ) (active_alerts : List (ℚ × Alert)) :
    List (ℚ × Alert) :=
  active_alerts.filter fun p => decide (current_time - p.2.last_detection_time ≤ 5)

/-- Same scan, history side: each alert with
current_time - last_detection_time > 5 is retired, and appended to the
history iff should_alert(min_detection_duration_s). -/
def cleanup_history (current_time min_detection_duration_s : ℚ)
    (active_alerts : List (ℚ × Alert)) (alert_history : List Alert) : List Alert :=
  alert_history ++
    (((active_alerts.filter fun p =>
        decide (5 < current_time - p.2.last_detection_time)).filter fun p =>
          p.2.should_alert min_detection_duration_s).map Prod.snd)

/-- The threshold state mutated by MonitoringMode._keyboard_monitor:
the effective buffer self.current_threshold_buffer and the configuration
field config.monitoring.threshold_buffer_db. -/
structure ThresholdState where
  current_threshold_buffer : ℚ
  threshold_buffer_db : ℚ
deriving DecidableEq

/-- Keys handled by _keyboard_monitor that touch the threshold. -/
inductive MonitorKey where
  | plus
  | minus
  | reset
deriving DecidableEq

/-- One key of MonitoringMode._keyboard_monitor (monitoring_mode.py lines
282-296).  The plus and minus branches call
Configuration.update_threshold_buffer (config.py lines 205-213), which
writes the new value into config.monitoring.threshold_buffer_db; the reset
branch copies config.monitoring.threshold_buffer_db back into the
effective buffer. -/
def apply_key (s : ThresholdState) : MonitorKey → ThresholdState
  | .plus =>
      let v := s.current_threshold_buffer + 1
      { current_threshold_buffer := v, threshold_buffer_db := v }
  | .minus =>
      if 1 < s.current_threshold_buffer then
        let v := s.current_threshold_buffer - 1
        { current_threshold_buffer := v, threshold_buffer_db := v }
      else s
  | .reset =>
      { s with current_threshold_buffer := s.threshold_buffer_db }

/-- Folding a key sequence through the keyboard monitor. -/
def apply_keys (s : ThresholdState) (ks : List MonitorKey) : ThresholdState :=
  ks.foldl apply_key s

/-- The index map numpy.linspace(0, len-1, H).astype(int) used by
SpectrumDisplayWidget._update_waterfall (spectrum_analyzer_ui.py lines
898-903): astype(int) truncates toward zero, which on these nonnegative
values is the floor of i * (len - 1) / (H - 1). -/
def waterfall_indices (len h : ℕ) : List ℕ :=
  (List.range h).map fun i : ℕ =>
    (⌊((i : ℚ) * ((len - 1 : ℕ) : ℚ)) / ((h - 1 : ℕ) : ℚ)⌋).toNat

/-- The frequency resampling of _update_waterfall: when the incoming power
array length differs from the waterfall height, gather
power_levels[indices]. -/
def waterfall_resample (power_levels : List ℚ) (waterfall_height : ℕ) : List ℚ :=
  if power_levels.length = waterfall_height then power_levels
  else (waterfall_indices power_levels.length waterfall_height).map
    fun i => power_levels.getD i 0

/-- The index map exactly as the spec sentence states it, with round
instead of truncation; kept for comparison with waterfall_resample. -/
def waterfall_resample_round_spec (power_levels : List ℚ) (waterfall_height : ℕ) :
    List ℚ :=
  if power_levels.length = waterfall_height then power_levels
  else (List.range waterfall_height).map fun i : ℕ =>
    power_levels.getD
      ((round (((i : ℚ) * ((power_levels.length - 1 : ℕ) : ℚ)) /
        ((waterfall_height - 1 : ℕ) : ℚ))).toNat) 0

/-- Python int() on a rational: truncation toward zero. -/
def truncQ (q : ℚ) : ℤ := if 0 ≤ q then ⌊q⌋ else -⌊-q⌋

/-- The (min, max) MHz pair handed to hackrf_sweep_set_range by the CLI
interface HackRFInterface._configure_sweep (spectrum_monitor/
hackrf_interface.py lines 653-666): the raw user range, unextended. -/
def cli_sweep_range (freq_min_mhz freq_max_mhz : ℚ) : ℤ × ℤ :=
  (truncQ freq_min_mhz, truncQ freq_max_mhz)

/-- The (min, max) MHz pair handed to hackrf_sweep_set_range by the Qt UI
interface _configure_sweep (python_ui/hackrf_interface.py lines 681-705):
the upper bound is extended by segment_bandwidth_mhz
= 20000000 * 0.75 / 1000000 = 15 MHz before truncation. -/
def ui_sweep_range (freq_min_mhz freq_max_mhz : ℚ) : ℤ × ℤ :=
  (truncQ freq_min_mhz,
    truncQ (freq_max_mhz + (DEFAULT_SAMPLE_RATE_HZ : ℚ) * (3 / 4) / (FREQ_ONE_MHZ : ℚ)))

/-- A 100-bin frequency grid whose centre (freqs[0] + freqs[99]) / 2
= 49.75 is uniquely closest to bin 50. -/
def dcTestFreqs : List ℚ := (List.range 100).map fun k : ℕ => if k = 0 then (1 : ℚ) / 2 else (k : ℚ)

/-- The 100-bin power frame of the DC-spike scenario: 0 dB at bin 50,
-80 dB elsewhere. -/
def dcTestPowers : List ℚ := (List.range 100).map fun k : ℕ => if k = 50 then (0 : ℚ) else -80

/-- A 401-bin baseline spanning [100, 500] MHz with 1 MHz bins. -/
def baseline401 : List ℚ := (List.range 401).map fun k : ℕ => 100 + (k : ℚ)

/-- A concrete 8-sample power buffer for the witness frames. -/
def pwr8 : List ℚ := [-80, -80, -80, -80, -80, -80, -80, -80]

/-- The frame the callback emits from pwr8 at centre 100 MHz with the user
range [90, 110] MHz. -/
def frame8 : Frame := ⟨[185/2, 195/2, 205/2, 215/2], [-80, -80, -80, -80]⟩

/-- An alert first and last seen at t = 0 (433.92 MHz, -70 dB seen,
-90 dB baseline, 10 dB buffer). -/
def alert0 : Alert := Alert.create (43392/100) (-70) (-90) 10 0

/-- getD of a map over List.range at an in-range index. -/
theorem getD_map_range (f : ℕ → ℚ) (d : ℚ) (n i : ℕ) (hi : i < n) :
    ((List.range n).map f).getD i d = f i := by
  rw [List.getD_eq_getElem?_getD, List.getElem?_map, List.getElem?_range hi]
  rfl

/-- remove_dc_spike never touches the frequency array. -/
theorem remove_dc_spike_fst (frequencies power_levels : List ℚ) (d : ℕ) :
    (remove_dc_spike frequencies power_levels d).1 = frequencies := by
  unfold remove_dc_spike
  split <;> rfl

/-- remove_dc_spike preserves the power-array length. -/
theorem remove_dc_spike_length (frequencies power_levels : List ℚ) (d : ℕ) :
    ((remove_dc_spike frequencies power_levels d).2).length = power_levels.length := by
  unfold remove_dc_spike
  split
  · rfl
  · simp

/-- The threshold-buffer update invariant: every keyboard action keeps the
effective buffer equal to the stored configuration value, because plus and
minus write the new value through Configuration.update_threshold_buffer. -/
theorem apply_keys_invariant (ks : List MonitorKey) :
    ∀ s : ThresholdState, s.current_threshold_buffer = s.threshold_buffer_db →
      (apply_keys s ks).current_threshold_buffer = (apply_keys s ks).threshold_buffer_db := by
  induction ks with
  | nil => intro s h; exact h
  | cons k ks ih =>
      intro s h
      apply ih
      cases k with
      | plus => rfl
      | minus =>
          dsimp only [apply_key]
          split
          · rfl
          · exact h
      | reset => rfl

/-- Claim C2: with N = 8, Fs = 20 MHz and centre 100 MHz, the lower tile is
power-buffer entries 2 and 3, the upper tile entries 6 and 7, and the
concatenated frequency vector is [92.5, 97.5, 102.5, 107.5] MHz with
inclusive linspace endpoints. -/
theorem tile_assembly_concrete (p0 p1 p2 p3 p4 p5 p6 p7 : ℚ) :
    segment_powers 8 [p0, p1, p2, p3, p4, p5, p6, p7] = [p2, p3, p6, p7] ∧
    segment_freqs 8 100000000 = [185/2, 195/2, 205/2, 215/2] := by
  exact ⟨rfl, by with_unfolding_all decide⟩

/-- Claim C3: remove_dc_spike keeps the frequency array and the power-array
length; on the 100-bin scenario (spike 0 dB at the centre bin 50, -80 dB
elsewhere, half-width 2) it interpolates bins 48..52 between the two -80 dB
neighbours, giving the all--80 frame; the remaining conjuncts exercise the
two-sided ramp, the left clamp, the right clamp and the overall-mean
fallback. -/
theorem dc_spike_interpolation :
    (∀ (frequencies power_levels : List ℚ) (d : ℕ),
      (remove_dc_spike frequencies power_levels d).1 = frequencies ∧
      ((remove_dc_spike frequencies power_levels d).2).length = power_levels.length) ∧
    (remove_dc_spike dcTestFreqs dcTestPowers 2).2 = List.replicate 100 (-80) ∧
    (remove_dc_spike [0, 1, 2, 3, 4] [0, 10, 100, 20, 30] 1).2 = [0, 0, 10, 20, 30] ∧
    (remove_dc_spike [0, 1, 2, 100] [9, 8, 7, 6] 1).2 = [9, 9, 9, 9] ∧
    (remove_dc_spike [0, 1, 2, 3] [1, 2, 3, 4] 1).2 = [4, 4, 4, 4] ∧
    (remove_dc_spike [0, 1, 2] [5, 7, 9] 5).2 = [7, 7, 7] := by
  refine ⟨?_, by with_unfolding_all decide, by with_unfolding_all decide,
    by with_unfolding_all decide, by with_unfolding_all decide, by with_unfolding_all decide⟩
  intro frequencies power_levels d
  exact ⟨remove_dc_spike_fst frequencies power_levels d,
    remove_dc_spike_length frequencies power_levels d⟩

/-- Claim C7 counterexample: pressing plus writes 11 into the config field,
so the subsequent reset leaves the effective buffer at 11, not at the
configured default 10. -/
theorem threshold_reset_counterexample :
    (apply_keys ⟨10, 10⟩ [MonitorKey.plus, MonitorKey.reset]).current_threshold_buffer = 11 ∧
    (11 : ℚ) ≠ 10 := by
  with_unfolding_all decide

/-- Claim C7 (amended): plus and minus write the updated value into
config.monitoring.threshold_buffer_db, so the effective buffer always
equals the stored config value and a reset is a no-op; it restores the
original default only when no update changed the config. -/
theorem threshold_reset_returns_updated_config (d : ℚ) (ks : List MonitorKey) :
    (apply_keys ⟨d, d⟩ ks).current_threshold_buffer =
      (apply_keys ⟨d, d⟩ ks).threshold_buffer_db ∧
    apply_keys ⟨d, d⟩ (ks ++ [MonitorKey.reset]) = apply_keys ⟨d, d⟩ ks := by
  have h := apply_keys_invariant ks ⟨d, d⟩ rfl
  refine ⟨h, ?_⟩
  have hstep : apply_keys ⟨d, d⟩ (ks ++ [MonitorKey.reset]) =
      apply_key (apply_keys ⟨d, d⟩ ks) MonitorKey.reset := by
    unfold apply_keys
    rw [List.foldl_append]
    rfl
  rw [hstep]
  revert h
  generalize apply_keys ⟨d, d⟩ ks = st
  intro h
  obtain ⟨c, t⟩ := st
  simp only at h
  subst h
  rfl

/-- Claim C8 counterexample: on a 3-bin frame resampled to height 4, the
code gathers with truncated linspace indices [0, 0, 1, 2] while the round
mapping of the claim gives [0, 1, 1, 2]; the outputs differ at row 1. -/
theorem waterfall_resample_truncates :
    waterfall_resample [0, 10, 20] 4 = [0, 0, 10, 20] ∧
    waterfall_resample_round_spec [0, 10, 20] 4 = [0, 10, 10, 20] ∧
    waterfall_resample [0, 10, 20] 4 ≠ waterfall_resample_round_spec [0, 10, 20] 4 := by
  with_unfolding_all decide

/-- Claim C8 (amended): when the frame length differs from the height H,
the waterfall engine resamples to length H by selecting, for output index
i, the input element at the TRUNCATED index floor(i * (len - 1) / (H - 1))
(numpy astype(int)), not the rounded one. -/
theorem waterfall_resample_floor_mapping (power_levels : List ℚ) (h : ℕ)
    (hne : power_levels.length ≠ h) :
    (waterfall_resample power_levels h).length = h ∧
    ∀ i, i < h → (waterfall_resample power_levels h).getD i 0 =
      power_levels.getD
        ((⌊((i : ℚ) * ((power_levels.length - 1 : ℕ) : ℚ)) /
          ((h - 1 : ℕ) : ℚ)⌋).toNat) 0 := by
  unfold waterfall_resample waterfall_indices
  rw [if_neg hne, List.map_map]
  constructor
  · rw [List.length_map, List.length_range]
  · intro i hi
    rw [getD_map_range _ _ _ _ hi]
    rfl

/-- Claim C8 witness: the amended mapping applied to the 3-bin frame at
height 4. -/
theorem waterfall_resample_floor_mapping_witness :
    (waterfall_resample [0, 10, 20] 4).length = 4 ∧
    (waterfall_resample [0, 10, 20] 4).getD 1 0 = 0 := by
  have hmain := waterfall_resample_floor_mapping [0, 10, 20] 4 (by decide)
  refine ⟨hmain.1, ?_⟩
  rw [hmain.2 1 (by decide)]
  with_unfolding_all decide

/-- Claim C9 counterexample: the CLI interface hands the raw user range to
hackrf_sweep_set_range — for the range [100, 6000] MHz the upper bound is
6000, not extended by about 15 MHz. -/
theorem cli_sweep_range_not_extended :
    cli_sweep_range 100 6000 = (100, 6000) ∧ (cli_sweep_range 100 6000).2 < 6000 + 15 := by
  with_unfolding_all decide

/-- Claim C9 (amended): only the Qt UI interface extends the sweep range,
handing upper bound int(f_max + 15); the CLI interface hands int(f_max)
unextended.  For an integral f_max the UI extension is exactly 15 MHz. -/
theorem sweep_range_extension (freq_min_mhz freq_max_mhz : ℚ) (z : ℤ) :
    (cli_sweep_range freq_min_mhz freq_max_mhz).2 = truncQ freq_max_mhz ∧
    (ui_sweep_range freq_min_mhz freq_max_mhz).2 = truncQ (freq_max_mhz + 15) ∧
    (freq_max_mhz = (z : ℚ) → (ui_sweep_range freq_min_mhz freq_max_mhz).2 = z + 15) := by
  have hseg : (DEFAULT_SAMPLE_RATE_HZ : ℚ) * (3 / 4) / (FREQ_ONE_MHZ : ℚ) = 15 := by
    norm_num [DEFAULT_SAMPLE_RATE_HZ, FREQ_ONE_MHZ]
  have hui : (ui_sweep_range freq_min_mhz freq_max_mhz).2 = truncQ (freq_max_mhz + 15) := by
    unfold ui_sweep_range
    rw [hseg]
  refine ⟨rfl, hui, ?_⟩
  intro hz
  rw [hui, hz]
  have hcast : ((z : ℚ) + 15) = ((z + 15 : ℤ) : ℚ) := by push_cast; ring
  rw [hcast]
  unfold truncQ
  rw [Int.floor_intCast]
  split
  · rfl
  next hneg =>
    rw [← Int.cast_neg, Int.floor_intCast]
    ring

/-- Claim C9 witness: the amended statement at the range [100, 6000]. -/
theorem sweep_range_extension_witness :
    (cli_sweep_range 100 6000).2 = truncQ 6000 ∧ (ui_sweep_range 100 6000).2 = 6000 + 15 :=
  ⟨(sweep_range_extension 100 6000 6000).1,
    (sweep_range_extension 100 6000 6000).2.2 (by simp)⟩

/-- Claim C10: with a loaded baseline, get_baseline_at_frequency computes
its tolerance from frequencies[1] - frequencies[0], so it raises (errors)
exactly when the baseline has fewer than two bins; with at least two bins
it always returns a value or None. -/
theorem get_baseline_single_bin_raises (frequencies max_power_levels : List ℚ)
    (target_freq : ℚ) :
    (frequencies.length = 1 →
      get_baseline_at_frequency true frequencies max_power_levels target_freq = .error ()) ∧
    (2 ≤ frequencies.length →
      ∃ r, get_baseline_at_frequency true frequencies max_power_levels target_freq = .ok r) := by
  constructor
  · intro h1
    have hne : frequencies ≠ [] := by
      intro h
      rw [h] at h1
      simp at h1
    unfold get_baseline_at_frequency
    rw [if_neg (by simp), if_neg hne, if_pos (by omega)]
  · intro h2
    have hne : frequencies ≠ [] := by
      intro h
      rw [h] at h2
      simp at h2
    unfold get_baseline_at_frequency
    rw [if_neg (by simp), if_neg hne, if_neg (by omega)]
    exact ⟨_, by dsimp only; exact (apply_ite Except.ok _ _ _).symm⟩

/-- Claim C10 witness: a single-bin baseline raises; the two-bin baseline
[100, 101] answers queries. -/
theorem get_baseline_single_bin_raises_witness :
    get_baseline_at_frequency true [100] [5] 100 = .error () ∧
    ∃ r, get_baseline_at_frequency true [100, 101] [5, 6] 100 = .ok r :=
  ⟨(get_baseline_single_bin_raises [100] [5] 100).1 (by decide),
    (get_baseline_single_bin_raises [100, 101] [5, 6] 100).2 (by decide)⟩

/-- Folding min over a list of elements all at least the accumulator
leaves the accumulator. -/
theorem foldl_min_eq (a : ℚ) (l : List ℚ) (h : ∀ x ∈ l, a ≤ x) : l.foldl min a = a := by
  induction l generalizing a with
  | nil => rfl
  | cons x xs ih =>
      rw [List.foldl_cons, min_eq_left (h x (List.mem_cons_self x xs))]
      exact ih a fun y hy => h y (List.mem_cons_of_mem x hy)

/-- Folding max dominates the accumulator and every list element. -/
theorem le_foldl_max (a : ℚ) (l : List ℚ) :
    a ≤ l.foldl max a ∧ ∀ x ∈ l, x ≤ l.foldl max a := by
  induction l generalizing a with
  | nil => exact ⟨le_refl a, by simp⟩
  | cons y ys ih =>
      obtain ⟨h1, h2⟩ := ih (max a y)
      rw [List.foldl_cons]
      refine ⟨le_trans (le_max_left a y) h1, ?_⟩
      intro x hx
      rcases List.mem_cons.mp hx with rfl | hx
      · exact le_trans (le_max_right a x) h1
      · exact h2 x hx

/-- Folding max returns the accumulator or one of the elements. -/
theorem foldl_max_mem (a : ℚ) (l : List ℚ) : l.foldl max a ∈ a :: l := by
  induction l generalizing a with
  | nil => simp
  | cons y ys ih =>
      rw [List.foldl_cons]
      rcases List.mem_cons.mp (ih (max a y)) with h | h
      · rw [h]
        rcases max_choice a y with h2 | h2 <;> rw [h2] <;> simp
      · exact List.mem_cons_of_mem _ (List.mem_cons_of_mem _ h)

/-- The 401-bin test baseline decomposed as head and tail. -/
theorem baseline401_cons :
    baseline401 = (100 : ℚ) :: (List.range 400).map fun k : ℕ => 101 + (k : ℚ) := by
  unfold baseline401
  rw [List.range_succ_eq_map, List.map_cons, List.map_map]
  refine List.cons_eq_cons.mpr ⟨by norm_num, ?_⟩
  refine List.map_congr_left fun k _ => ?_
  simp only [Function.comp_apply]
  push_cast
  ring

/-- numpy.min of the 401-bin test baseline. -/
theorem baseline401_min_eq : listMinQ baseline401 = 100 := by
  rw [baseline401_cons]
  show ((List.range 400).map fun k : ℕ => 101 + (k : ℚ)).foldl min 100 = 100
  apply foldl_min_eq
  intro x hx
  simp only [List.mem_map, List.mem_range] at hx
  obtain ⟨k, _, rfl⟩ := hx
  have : (0 : ℚ) ≤ (k : ℚ) := Nat.cast_nonneg k
  linarith

/-- numpy.max of the 401-bin test baseline. -/
theorem baseline401_max_eq : listMaxQ baseline401 = 500 := by
  rw [baseline401_cons]
  show ((List.range 400).map fun k : ℕ => 101 + (k : ℚ)).foldl max 100 = 500
  apply le_antisymm
  · rcases List.mem_cons.mp
      (foldl_max_mem 100 ((List.range 400).map fun k : ℕ => 101 + (k : ℚ))) with h | h
    · rw [h]; norm_num
    · simp only [List.mem_map, List.mem_range] at h
      obtain ⟨k, hk, hkx⟩ := h
      rw [← hkx]
      have : (k : ℚ) ≤ 399 := by exact_mod_cast Nat.le_of_lt_succ hk
      linarith
  · refine (le_foldl_max 100 _).2 500 ?_
    simp only [List.mem_map, List.mem_range]
    exact ⟨399, by norm_num, by norm_num⟩

/-- Length of the 401-bin test baseline. -/
theorem baseline401_length_eq : baseline401.length = 401 := by
  unfold baseline401
  rw [List.length_map, List.length_range]

/-- Characterisation of the coverage check for a loaded multi-bin
baseline. -/
theorem coverage_true_iff (frequencies : List ℚ) (freq_min freq_max : ℚ)
    (h1 : 1 < frequencies.length) :
    check_frequency_coverage true frequencies freq_min freq_max = true ↔
      listMinQ frequencies - freq_min ≤
        (listMaxQ frequencies - listMinQ frequencies) / ((frequencies.length - 1 : ℕ) : ℚ) ∧
      freq_max - listMaxQ frequencies ≤
        (listMaxQ frequencies - listMinQ frequencies) / ((frequencies.length - 1 : ℕ) : ℚ) := by
  simp only [check_frequency_coverage, Bool.not_true, Bool.false_eq_true, if_false, if_pos h1]
  split
  next h2 =>
    constructor
    · intro hfalse
      exact absurd hfalse (by simp)
    · intro hconj
      rcases h2 with h2 | h2 <;> [exact absurd hconj.1 (not_le.mpr h2);
        exact absurd hconj.2 (not_le.mpr h2)]
  next h2 =>
    push_neg at h2
    exact iff_of_true rfl ⟨h2.1, h2.2⟩

/-- Claim C4: for a loaded baseline with K >= 2 bins the coverage check
passes iff both deficits are at most one bin width
tol = (base_max - base_min) / (K - 1); the 401-bin baseline over
[100, 500] MHz (tol = 1 MHz) accepts the exact range, accepts a one-bin
deficit on each side, rejects a two-bin deficit, and rejects
[100, 501.5] MHz (deficit 1.5 MHz). -/
theorem coverage_check :
    (∀ (frequencies : List ℚ) (freq_min freq_max : ℚ), 2 ≤ frequencies.length →
      (check_frequency_coverage true frequencies freq_min freq_max = true ↔
        listMinQ frequencies - freq_min ≤
          (listMaxQ frequencies - listMinQ frequencies) /
            ((frequencies.length - 1 : ℕ) : ℚ) ∧
        freq_max - listMaxQ frequencies ≤
          (listMaxQ frequencies - listMinQ frequencies) /
            ((frequencies.length - 1 : ℕ) : ℚ))) ∧
    check_frequency_coverage true baseline401 100 500 = true ∧
    check_frequency_coverage true baseline401 99 501 = true ∧
    check_frequency_coverage true baseline401 98 500 = false ∧
    check_frequency_coverage true baseline401 100 502 = false ∧
    check_frequency_coverage true baseline401 100 (1003 / 2) = false := by
  have hlen : 1 < baseline401.length := by rw [baseline401_length_eq]; omega
  have htol : (listMaxQ baseline401 - listMinQ baseline401) /
      ((baseline401.length - 1 : ℕ) : ℚ) = 1 := by
    rw [baseline401_min_eq, baseline401_max_eq, baseline401_length_eq]
    norm_num
  refine ⟨fun frequencies freq_min freq_max hK =>
    coverage_true_iff frequencies freq_min freq_max (by omega), ?_, ?_, ?_, ?_, ?_⟩
  · rw [coverage_true_iff baseline401 100 500 hlen, htol,
      baseline401_min_eq, baseline401_max_eq]
    norm_num
  · rw [coverage_true_iff baseline401 99 501 hlen, htol,
      baseline401_min_eq, baseline401_max_eq]
    norm_num
  · rw [← Bool.not_eq_true, coverage_true_iff baseline401 98 500 hlen, htol,
      baseline401_min_eq, baseline401_max_eq]
    norm_num
  · rw [← Bool.not_eq_true, coverage_true_iff baseline401 100 502 hlen, htol,
      baseline401_min_eq, baseline401_max_eq]
    norm_num
  · rw [← Bool.not_eq_true, coverage_true_iff baseline401 100 (1003 / 2) hlen, htol,
      baseline401_min_eq, baseline401_max_eq]
    norm_num

/-- Claim C4 witness: the coverage characterisation applied to the 401-bin
baseline at the exact range. -/
theorem coverage_check_witness :
    check_frequency_coverage true baseline401 100 500 = true ↔
      listMinQ baseline401 - 100 ≤
        (listMaxQ baseline401 - listMinQ baseline401) /
          ((baseline401.length - 1 : ℕ) : ℚ) ∧
      500 - listMaxQ baseline401 ≤
        (listMaxQ baseline401 - listMinQ baseline401) /
          ((baseline401.length - 1 : ℕ) : ℚ) :=
  coverage_check.1 baseline401 100 500 (by simp [baseline401])

/-- getD of zipWith max is the max of the getD values, inside bounds. -/
theorem getD_zipWith_max (a b : List ℚ) (j : ℕ) (hja : j < a.length) (hjb : j < b.length) :
    (List.zipWith max a b).getD j 0 = max (a.getD j 0) (b.getD j 0) := by
  induction a generalizing b j with
  | nil => simp at hja
  | cons x xs ih =>
      cases b with
      | nil => simp at hjb
      | cons y ys =>
          cases j with
          | zero => rfl
          | succ j =>
              simp only [List.zipWith_cons_cons, List.getD_cons_succ]
              exact ih ys j (by simpa using hja) (by simpa using hjb)

/-- Folding zipWith max over rows of equal length keeps the length. -/
theorem foldl_zipWith_max_length (rs : List (List ℚ)) :
    ∀ acc : List ℚ, (∀ row ∈ rs, row.length = acc.length) →
      (rs.foldl (fun a row => List.zipWith max a row) acc).length = acc.length := by
  induction rs with
  | nil => intro acc _; rfl
  | cons r rs ih =>
      intro acc hall
      rw [List.foldl_cons]
      have hr : r.length = acc.length := hall r (List.mem_cons_self r rs)
      have hlen : (List.zipWith max acc r).length = acc.length := by
        simp [List.length_zipWith, hr]
      rw [ih (List.zipWith max acc r)
        (fun row hrow => by rw [hall row (List.mem_cons_of_mem r hrow), hlen]), hlen]

/-- Columnwise view of folding zipWith max over rows of equal length. -/
theorem foldl_zipWith_max_getD (rs : List (List ℚ)) :
    ∀ (acc : List ℚ) (j : ℕ), j < acc.length →
      (∀ row ∈ rs, row.length = acc.length) →
      (rs.foldl (fun a row => List.zipWith max a row) acc).getD j 0 =
        (rs.map fun row => row.getD j 0).foldl max (acc.getD j 0) := by
  induction rs with
  | nil => intro acc j _ _; rfl
  | cons r rs ih =>
      intro acc j hj hall
      rw [List.foldl_cons, List.map_cons, List.foldl_cons]
      have hr : r.length = acc.length := hall r (List.mem_cons_self r rs)
      have hlen : (List.zipWith max acc r).length = acc.length := by
        simp [List.length_zipWith, hr]
      have h2 := ih (List.zipWith max acc r) j (by rw [hlen]; exact hj)
        (fun row hrow => by rw [hall row (List.mem_cons_of_mem r hrow), hlen])
      rw [h2, getD_zipWith_max acc r j hj (by rw [hr]; exact hj)]

/-- Claim C5: loading after save_baselines recovers the frequency array,
recovers max_power_levels as numpy.max(power_history, axis=0) — which is
the columnwise maximum: a member of each column that dominates it — and
recovers every metadata field supplied by the caller (user keys override
the computed ones, as dict.update). -/
theorem save_load_roundtrip (now : ℚ) (date : String) (freqs : List ℚ)
    (hist : List (List ℚ)) (meta : List (String × MetaVal)) (K : ℕ)
    (hne : hist ≠ []) (hrect : ∀ row ∈ hist, row.length = K) :
    (load_baselines (save_baselines now date freqs hist meta)).1 = freqs ∧
    (load_baselines (save_baselines now date freqs hist meta)).2.1 = maxAxis0 hist ∧
    (∀ k v, meta.lookup k = some v →
      (load_baselines (save_baselines now date freqs hist meta)).2.2 k = some v) ∧
    (maxAxis0 hist).length = K ∧
    (∀ j, j < K →
      (maxAxis0 hist).getD j 0 ∈ hist.map (fun row => row.getD j 0) ∧
      ∀ x ∈ hist.map (fun row => row.getD j 0), x ≤ (maxAxis0 hist).getD j 0) := by
  obtain ⟨r, rs, rfl⟩ : ∃ r rs, hist = r :: rs := by
    cases hist with
    | nil => exact absurd rfl hne
    | cons r rs => exact ⟨r, rs, rfl⟩
  have hK : r.length = K := hrect r (List.mem_cons_self r rs)
  have hrows : ∀ row ∈ rs, row.length = r.length := fun row hrow => by
    rw [hrect row (List.mem_cons_of_mem r hrow), hK]
  refine ⟨rfl, rfl, ?_, ?_, ?_⟩
  · intro k v hk
    show (match meta.lookup k with
      | some v => some v
      | none => (base_metadata now date freqs (r :: rs)).lookup k) = some v
    rw [hk]
  · show (rs.foldl (fun a row => List.zipWith max a row) r).length = K
    rw [foldl_zipWith_max_length rs r hrows, hK]
  · intro j hj
    have hjr : j < r.length := by rw [hK]; exact hj
    have hM : (maxAxis0 (r :: rs)).getD j 0 =
        (rs.map fun row => row.getD j 0).foldl max (r.getD j 0) :=
      foldl_zipWith_max_getD rs r j hjr hrows
    rw [hM, List.map_cons]
    constructor
    · exact foldl_max_mem (r.getD j 0) (rs.map fun row => row.getD j 0)
    · intro x hx
      rcases List.mem_cons.mp hx with rfl | hx
      · exact (le_foldl_max _ _).1
      · exact (le_foldl_max _ _).2 x hx

/-- Claim C5 witness: the peak-hold scenario of the spec — two sweeps
[-80, -70, -60] then [-75, -75, -65] round-trip to max_power
[-75, -70, -60], and a user metadata key overrides the computed one. -/
theorem save_load_roundtrip_witness :
    (load_baselines (save_baselines 0 "d" [1, 2, 3] [[-80, -70, -60], [-75, -75, -65]]
      [(timestampKey, MetaVal.num 42)])).2.1 = [-75, -70, -60] ∧
    (load_baselines (save_baselines 0 "d" [1, 2, 3] [[-80, -70, -60], [-75, -75, -65]]
      [(timestampKey, MetaVal.num 42)])).2.2 timestampKey = some (MetaVal.num 42) := by
  have h := save_load_roundtrip 0 "d" [1, 2, 3] [[-80, -70, -60], [-75, -75, -65]]
    [(timestampKey, MetaVal.num 42)] 3 (by simp) (by with_unfolding_all decide)
  constructor
  · rw [h.2.1]
    with_unfolding_all decide
  · exact h.2.2.1 timestampKey (MetaVal.num 42) rfl

/-- linspace with distinct endpoints is strictly increasing. -/
theorem linspace_sorted (s e : ℚ) (n : ℕ) (h : s < e) :
    (linspace s e n).Sorted (· < ·) := by
  unfold linspace
  split
  · exact List.sorted_nil
  · split
    · exact List.sorted_singleton _
    next h0 h1 =>
      have hden : (0 : ℚ) < ((n - 1 : ℕ) : ℚ) := by
        exact_mod_cast Nat.pos_of_ne_zero (by omega)
      have hstep : (0 : ℚ) < (e - s) / ((n - 1 : ℕ) : ℚ) := div_pos (by linarith) hden
      refine List.Pairwise.map _ ?_ (List.pairwise_lt_range n)
      intro a b hab
      have hab2 : (a : ℚ) < (b : ℚ) := by exact_mod_cast hab
      have := mul_lt_mul_of_pos_right hab2 hstep
      linarith

/-- Every linspace point lies between the endpoints. -/
theorem linspace_mem_bounds (s e : ℚ) (n : ℕ) (hse : s ≤ e) :
    ∀ x ∈ linspace s e n, s ≤ x ∧ x ≤ e := by
  unfold linspace
  split
  · simp
  · split
    · intro x hx
      rw [List.mem_singleton] at hx
      exact ⟨le_of_eq hx.symm, by rw [hx]; exact hse⟩
    next h0 h1 =>
      intro x hx
      simp only [List.mem_map, List.mem_range] at hx
      obtain ⟨i, hi, rfl⟩ := hx
      have hden : (0 : ℚ) < ((n - 1 : ℕ) : ℚ) := by
        exact_mod_cast Nat.pos_of_ne_zero (by omega)
      have hstep : (0 : ℚ) ≤ (e - s) / ((n - 1 : ℕ) : ℚ) :=
        div_nonneg (by linarith) (le_of_lt hden)
      constructor
      · have := mul_nonneg (Nat.cast_nonneg (α := ℚ) i) hstep
        linarith
      · have hi2 : (i : ℚ) ≤ ((n - 1 : ℕ) : ℚ) := by
          exact_mod_cast (by omega : i ≤ n - 1)
        have h3 := mul_le_mul_of_nonneg_right hi2 hstep
        have h4 : ((n - 1 : ℕ) : ℚ) * ((e - s) / ((n - 1 : ℕ) : ℚ)) = e - s := by
          rw [mul_comm]
          exact div_mul_cancel₀ _ (ne_of_gt hden)
        linarith

/-- Two strictly increasing linspace tiles concatenate to a strictly
increasing list when the first ends below the second. -/
theorem linspace_append_sorted (s1 e1 s2 e2 : ℚ) (n m : ℕ)
    (h1 : s1 < e1) (h2 : s2 < e2) (h12 : e1 < s2) :
    (linspace s1 e1 n ++ linspace s2 e2 m).Sorted (· < ·) := by
  refine List.pairwise_append.mpr
    ⟨linspace_sorted s1 e1 n h1, linspace_sorted s2 e2 m h2, ?_⟩
  intro a ha b hb
  have hA := linspace_mem_bounds s1 e1 n (le_of_lt h1) a ha
  have hB := linspace_mem_bounds s2 e2 m (le_of_lt h2) b hb
  linarith [hA.2, hB.1]

/-- The frequency vector of one tuning is strictly increasing: each tile
is a rising linspace and the lower tile ends at (fc - Fs/8)/1e6, below
the upper tile's start (fc + Fs/8)/1e6. -/
theorem segment_freqs_sorted (N : ℕ) (fc : ℤ) :
    (segment_freqs N fc).Sorted (· < ·) := by
  have hc1 : (DEFAULT_SAMPLE_RATE_HZ * 3 / 8 : ℤ) = 7500000 := by decide
  have hc2 : (DEFAULT_SAMPLE_RATE_HZ / 8 : ℤ) = 2500000 := by decide
  have hm : ((FREQ_ONE_MHZ : ℤ) : ℚ) = 1000000 := by norm_num [FREQ_ONE_MHZ]
  simp only [segment_freqs]
  apply linspace_append_sorted
  · rw [hc1, hc2, hm]
    push_cast
    linarith
  · rw [hc1, hc2, hm]
    push_cast
    linarith
  · rw [hc2, hm]
    push_cast
    linarith

/-- Mapping fst over a zip gives a sublist of the first list. -/
theorem map_fst_zip_sublist (l p : List ℚ) :
    List.Sublist ((l.zip p).map Prod.fst) l := by
  induction l generalizing p with
  | nil => simp
  | cons x xs ih =>
      cases p with
      | nil => simp
      | cons y ys =>
          simp only [List.zip_cons_cons, List.map_cons]
          exact List.Sublist.cons₂ x (ih ys)

/-- Filtering a zip of a strictly increasing list and mapping fst stays
strictly increasing. -/
theorem clipped_map_fst_sorted (l p : List ℚ) (q : ℚ × ℚ → Bool)
    (hl : l.Sorted (· < ·)) :
    (((l.zip p).filter q).map Prod.fst).Sorted (· < ·) := by
  have h1 : List.Sublist ((l.zip p).filter q) (l.zip p) := List.filter_sublist _
  have h2 := h1.map Prod.fst
  exact hl.sublist (h2.trans (map_fst_zip_sublist l p))

/-- remove_dc_spike on an empty power array returns it unchanged. -/
theorem remove_dc_spike_nil_powers (frequencies : List ℚ) (d : ℕ) :
    remove_dc_spike frequencies [] d = (frequencies, []) := by
  unfold remove_dc_spike
  rw [if_pos (Or.inr rfl)]

/-- clipped_pairs always filters a zip whose first component is the tile
frequency vector (DC-spike removal does not touch the frequencies). -/
theorem clipped_pairs_eq (N : ℕ) (fc : ℤ) (pwr : List ℚ) (dc : Bool) (d : ℕ)
    (fmin fmax : ℚ) :
    clipped_pairs N fc pwr dc d fmin fmax =
      ((segment_freqs N fc).zip
        (if dc then (remove_dc_spike (segment_freqs N fc) (segment_powers N pwr) d).2
         else segment_powers N pwr)).filter
        fun p => decide (fmin ≤ p.1 ∧ p.1 ≤ fmax) := by
  cases dc
  · rfl
  · show ((remove_dc_spike (segment_freqs N fc) (segment_powers N pwr) d).1.zip
        (remove_dc_spike (segment_freqs N fc) (segment_powers N pwr) d).2).filter
        (fun p => decide (fmin ≤ p.1 ∧ p.1 ≤ fmax)) =
      ((segment_freqs N fc).zip
        (remove_dc_spike (segment_freqs N fc) (segment_powers N pwr) d).2).filter
        (fun p => decide (fmin ≤ p.1 ∧ p.1 ≤ fmax))
    rw [remove_dc_spike_fst]

/-- Every clipped pair lies inside the user range. -/
theorem clipped_pairs_mem (N : ℕ) (fc : ℤ) (pwr : List ℚ) (dc : Bool) (d : ℕ)
    (fmin fmax : ℚ) :
    ∀ pr ∈ clipped_pairs N fc pwr dc d fmin fmax, fmin ≤ pr.1 ∧ pr.1 ≤ fmax := by
  intro pr hpr
  rw [clipped_pairs_eq, List.mem_filter] at hpr
  exact of_decide_eq_true hpr.2

/-- The clipped frequency list is strictly increasing. -/
theorem clipped_pairs_fst_sorted (N : ℕ) (fc : ℤ) (pwr : List ℚ) (dc : Bool) (d : ℕ)
    (fmin fmax : ℚ) :
    ((clipped_pairs N fc pwr dc d fmin fmax).map Prod.fst).Sorted (· < ·) := by
  rw [clipped_pairs_eq]
  exact clipped_map_fst_sorted _ _ _ (segment_freqs_sorted N fc)

/-- With no FFT output (size 0 or null buffer) the clipped list is
empty. -/
theorem clipped_pairs_eq_nil (N : ℕ) (fc : ℤ) (pwr : List ℚ) (dc : Bool) (d : ℕ)
    (fmin fmax : ℚ) (h : N = 0 ∨ pwr = []) :
    clipped_pairs N fc pwr dc d fmin fmax = [] := by
  rcases h with rfl | rfl
  · have hfr : segment_freqs 0 fc = [] := rfl
    rw [clipped_pairs_eq, hfr]
    simp
  · have hpw : segment_powers N [] = [] := by simp [segment_powers]
    rw [clipped_pairs_eq, hpw, remove_dc_spike_nil_powers]
    cases dc <;> simp

/-- Claim C1: a run of the FFT-ready callback emits a frame iff the
range-clipped arrays are nonempty, and every emitted frame has a strictly
increasing frequency array all of whose entries lie in the closed user
range [freq_min, freq_max]. -/
theorem emitted_frame_invariants (N : ℕ) (fc : ℤ) (pwr : List ℚ) (dc : Bool) (d : ℕ)
    (user_freq_min user_freq_max : ℚ) :
    ((fft_ready_frame N fc pwr dc d user_freq_min user_freq_max).isSome = true ↔
      clipped_pairs N fc pwr dc d user_freq_min user_freq_max ≠ []) ∧
    ∀ fr, fft_ready_frame N fc pwr dc d user_freq_min user_freq_max = some fr →
      fr.freqs.Sorted (· < ·) ∧
      ∀ f ∈ fr.freqs, user_freq_min ≤ f ∧ f ≤ user_freq_max := by
  constructor
  · by_cases h : N = 0 ∨ pwr = []
    · rw [clipped_pairs_eq_nil N fc pwr dc d user_freq_min user_freq_max h]
      simp [fft_ready_frame, h]
    · simp only [fft_ready_frame]
      rw [if_neg h]
      by_cases hc : clipped_pairs N fc pwr dc d user_freq_min user_freq_max = []
      · simp [hc]
      · simp [hc]
  · intro fr hfr
    simp only [fft_ready_frame] at hfr
    split at hfr
    · exact absurd hfr (by simp)
    · split at hfr
      · exact absurd hfr (by simp)
      · have hfr2 : fr =
            ⟨(clipped_pairs N fc pwr dc d user_freq_min user_freq_max).map Prod.fst,
             (clipped_pairs N fc pwr dc d user_freq_min user_freq_max).map Prod.snd⟩ :=
          (Option.some_inj.mp hfr).symm
        subst hfr2
        refine ⟨clipped_pairs_fst_sorted N fc pwr dc d user_freq_min user_freq_max, ?_⟩
        intro f hf
        have hf2 : f ∈ (clipped_pairs N fc pwr dc d user_freq_min user_freq_max).map
            Prod.fst := hf
        obtain ⟨pr, hpr, rfl⟩ := List.mem_map.mp hf2
        exact clipped_pairs_mem N fc pwr dc d user_freq_min user_freq_max pr hpr

/-- Claim C1 witness: the frame emitted for an 8-point FFT at 100 MHz with
user range [90, 110] is sorted and its first frequency 92.5 MHz lies in the
range. -/
theorem emitted_frame_invariants_witness :
    ((90 : ℚ) ≤ 185/2 ∧ (185/2 : ℚ) ≤ 110) ∧ frame8.freqs.Sorted (· < ·) := by
  have h := (emitted_frame_invariants 8 100000000 pwr8 false 0 90 110).2 frame8
    (by with_unfolding_all decide)
  exact ⟨h.2 (185/2) (by with_unfolding_all decide), h.1⟩

/-- Claim C6 counterexample: an alert whose last crossing is exactly 5 s
old (the claim's boundary "for >= 5 seconds") is NOT retired by the scan,
because the code tests time_since_last > 5.0 strictly: it stays in
active_alerts and nothing is appended to the history. -/
theorem alert_not_retired_at_five_seconds :
    (5 : ℚ) - alert0.last_detection_time ≥ 5 ∧
    cleanup_active 5 [((43392/100 : ℚ), alert0)] = [((43392/100 : ℚ), alert0)] ∧
    cleanup_history 5 (1/2) [((43392/100 : ℚ), alert0)] [] = [] := by
  have hlast : alert0.last_detection_time = 0 := rfl
  have hcond : decide ((5 : ℚ) - alert0.last_detection_time ≤ 5) = true :=
    decide_eq_true (by rw [hlast]; norm_num)
  have hcond2 : decide ((5 : ℚ) < 5 - alert0.last_detection_time) = false :=
    decide_eq_false (by rw [hlast]; norm_num)
  have h1 : (5 : ℚ) - alert0.last_detection_time ≥ 5 := by
    rw [hlast]
    norm_num
  refine ⟨h1, ?_, ?_⟩
  · simp [cleanup_active, List.filter_cons, hcond, hlast]
  · simp [cleanup_history, List.filter_cons, hcond2, hlast]

/-- Claim C6 (amended): an active alert is retired by the scan iff its
last crossing is STRICTLY more than 5 s old (the code tests
now - last_seen > 5.0, not >= 5); a retired alert enters the history iff
last_seen - first_seen >= min_detection_duration_s; and every alert in the
scanned history satisfies both the duration bound and
detection_count >= 1. -/
theorem alert_lifecycle (current_time min_duration : ℚ)
    (active : List (ℚ × Alert)) (history : List Alert)
    (hactive : ∀ p ∈ active, 1 ≤ p.2.detection_count)
    (hhistory : ∀ a ∈ history,
      min_duration ≤ a.get_duration ∧ 1 ≤ a.detection_count) :
    (∀ p ∈ active, (p ∈ cleanup_active current_time active ↔
      ¬ 5 < current_time - p.2.last_detection_time)) ∧
    (∀ p ∈ active, 5 < current_time - p.2.last_detection_time →
      (p.2 ∈ cleanup_history current_time min_duration active history ↔
        min_duration ≤ p.2.get_duration)) ∧
    (∀ a ∈ cleanup_history current_time min_duration active history,
      min_duration ≤ a.get_duration ∧ 1 ≤ a.detection_count) := by
  have hmem : ∀ a, a ∈ cleanup_history current_time min_duration active history ↔
      (a ∈ history ∨ ∃ p ∈ active, 5 < current_time - p.2.last_detection_time ∧
        min_duration ≤ p.2.get_duration ∧ p.2 = a) := by
    intro a
    unfold cleanup_history
    rw [List.mem_append]
    constructor
    · rintro (h | h)
      · exact Or.inl h
      · right
        rw [List.mem_map] at h
        obtain ⟨p, hp, rfl⟩ := h
        rw [List.mem_filter] at hp
        obtain ⟨hp1, hp2⟩ := hp
        rw [List.mem_filter] at hp1
        refine ⟨p, hp1.1, of_decide_eq_true hp1.2, ?_, rfl⟩
        exact of_decide_eq_true hp2
    · rintro (h | ⟨p, hp, hret, hdur, rfl⟩)
      · exact Or.inl h
      · right
        rw [List.mem_map]
        refine ⟨p, ?_, rfl⟩
        rw [List.mem_filter, List.mem_filter]
        exact ⟨⟨hp, decide_eq_true hret⟩, decide_eq_true hdur⟩
  refine ⟨?_, ?_, ?_⟩
  · intro p hp
    unfold cleanup_active
    rw [List.mem_filter]
    constructor
    · intro h
      exact not_lt.mpr (of_decide_eq_true h.2)
    · intro h
      exact ⟨hp, decide_eq_true (not_lt.mp h)⟩
  · intro p hp hret
    rw [hmem p.2]
    constructor
    · rintro (h | ⟨q, _, _, hdur, hq⟩)
      · exact (hhistory p.2 h).1
      · rw [← hq]
        exact hdur
    · intro hdur
      exact Or.inr ⟨p, hp, hret, hdur, rfl⟩
  · intro a ha
    rcases (hmem a).mp ha with h | ⟨p, hp, _, hdur, rfl⟩
    · exact hhistory a h
    · exact ⟨hdur, hactive p hp⟩

/-- Claim C6 witness: the amended lifecycle applied to one stale alert
(last seen at t = 0, scanned at t = 10, zero minimum duration): it is
retired and enters the history. -/
theorem alert_lifecycle_witness :
    (Alert.create 1 (-70) (-90) 10 0) ∈
      cleanup_history 10 0 [((1 : ℚ), Alert.create 1 (-70) (-90) 10 0)] [] := by
  have h := alert_lifecycle 10 0 [((1 : ℚ), Alert.create 1 (-70) (-90) 10 0)] []
    (by simp [Alert.create]) (by simp)
  exact (h.2.1 ((1 : ℚ), Alert.create 1 (-70) (-90) 10 0)
    (by simp) (by norm_num [Alert.create])).mpr
    (by norm_num [Alert.create, Alert.get_duration])

end SpectrumMonitor
